import Mathlib

/-!
Verification of the column read strategies of the arrow-odbc core
(src/read_strategy/text.rs and src/read_strategy/map_odbc_to_arrow.rs).

The embedding models:
  - the SQL data-type descriptor consumed by the text strategy selector,
  - the strategy selector choose_text_strategy with its buffer-limit closure,
  - the six fill_arrow_array conversion paths (direct non-null, direct
    nullable, mapped non-null, mapped nullable, narrow text, wide text).

Machine-level conventions: bytes and UTF-16 code units are Nat, Arrow
primitive arrays are lists of optional values (value plus validity),
Rust Result is Except, and a Rust panic (unwrap / expect on a bad value)
is a dedicated result constructor, kept distinct from the typed errors.
-/

/-- Error raised by the external ODBC layer; the source only stores and
forwards it, so its payload is modelled as an opaque message string. -/
inductive OdbcError where
  | mk (msg : String)
deriving DecidableEq, Repr

/-- SQL data-type descriptor. The five text variants mirror the
odbc_api::DataType variants matched by name in choose_text_strategy
(is_narrow: LongVarchar, Varchar, Char; is_wide: WVarchar, WChar), each
carrying its declared length. Every non-text variant is collapsed into
one constructor carrying the result of the external display_size()
metadata accessor, which is all the source reads from it. -/
inductive OdbcDataType where
  | char (length : Nat)
  | varchar (length : Nat)
  | longVarchar (length : Nat)
  | wChar (length : Nat)
  | wVarchar (length : Nat)
  | other (displaySize : Option Nat)
deriving DecidableEq, Repr

namespace OdbcDataType

/-- Modelled from the spec: the external metadata accessor reporting a
fixed encoded octet length for text types ("If the SQL type metadata
reports a fixed encoded length (octet length for narrow, ...), use it
directly"); the declared length field stands for the reported value.
Non-text types report no fixed encoded length. -/
def utf8_len : OdbcDataType → Option Nat
  | char l => some l
  | varchar l => some l
  | longVarchar l => some l
  | wChar l => some l
  | wVarchar l => some l
  | other _ => none

/-- Modelled from the spec: the external metadata accessor reporting a
fixed encoded length in UTF-16 code units for text types ("... UTF-16
unit count for wide"); the declared length field stands for the reported
value. Non-text types report no fixed encoded length. -/
def utf16_len : OdbcDataType → Option Nat
  | char l => some l
  | varchar l => some l
  | longVarchar l => some l
  | wChar l => some l
  | wVarchar l => some l
  | other _ => none

/-- Modelled from the spec: the external display-size metadata accessor
("a data-source-reported maximum character width for a column"), which
only non-text variants can report here; the source immediately falls
back to the lazy query when it is absent. -/
def display_size : OdbcDataType → Option Nat
  | other ds => ds
  | _ => none

/-- The is_narrow classification of choose_text_strategy: matches
LongVarchar, Varchar and Char. -/
def is_narrow : OdbcDataType → Bool
  | longVarchar _ => true
  | varchar _ => true
  | char _ => true
  | _ => false

/-- The is_wide classification of choose_text_strategy: matches
WVarchar and WChar. -/
def is_wide : OdbcDataType → Bool
  | wVarchar _ => true
  | wChar _ => true
  | _ => false

/-- The is_text classification of choose_text_strategy:
is_narrow or is_wide. -/
def is_text (t : OdbcDataType) : Bool :=
  t.is_narrow || t.is_wide

end OdbcDataType

/-- Column-description failures of the source (ColumnFailure variants
used by choose_text_strategy). -/
inductive ColumnFailure where
  | zeroSizedColumn (sql_type : OdbcDataType)
  | unknownStringLength (sql_type : OdbcDataType) (source : OdbcError)
deriving DecidableEq, Repr

/-- Read strategy value returned by choose_text_strategy: either the
WideText strategy (UTF-16 requested, transcoded to UTF-8) or the
NarrowText strategy (bytes assumed UTF-8), each holding its maximum
string length (excluding the terminating zero). -/
inductive TextStrategy where
  | wideText (max_str_len : Nat)
  | narrowText (max_str_len : Nat)
deriving DecidableEq, Repr

/-- Result of choose_text_strategy. A Rust panic (the .unwrap() on the
isize-to-usize conversion of a display size) is modelled as its own
constructor, distinct from the typed ColumnFailure error. -/
inductive ChooseResult where
  | ok (strategy : TextStrategy)
  | err (e : ColumnFailure)
  | panicked
deriving DecidableEq, Repr

/-- The apply_buffer_limit closure of choose_text_strategy, with the
exact match arms of the source: (0, None) is the zero-sized-column
error, (0, Some limit) yields the limit, (len, None) yields len, and
(len, Some limit) yields min len limit. -/
def apply_buffer_limit (sql_type : OdbcDataType) (len : Nat)
    (max_text_size : Option Nat) : Except ColumnFailure Nat :=
  match len, max_text_size with
  | 0, none => .error (.zeroSizedColumn sql_type)
  | 0, some limit => .ok limit
  | len, none => .ok len
  | len, some limit => .ok (min len limit)

/-- Packaging of an apply_buffer_limit result by the question-mark
operator: an error aborts choose_text_strategy with that error. -/
def limitToChoose (r : Except ColumnFailure Nat) (mk : Nat → TextStrategy) :
    ChooseResult :=
  match r with
  | .ok len => .ok (mk len)
  | .error e => .err e

/-- The choose_text_strategy function of text.rs. The compile-time
cfg!(target_os = windows) test is the explicit parameter windows; the
lazy display-size query (called at most once) is modelled by the result
it would produce. On text types the platform picks wide (utf16_len) or
narrow (utf8_len); on other types the display size, taken from the
metadata or else from the lazy query, is converted isize-to-usize with
.unwrap(), which panics when the value is negative. -/
def choose_text_strategy (windows : Bool) (sql_type : OdbcDataType)
    (lazy_display_size : Except OdbcError Int) (max_text_size : Option Nat) :
    ChooseResult :=
  if sql_type.is_text then
    if windows then
      match sql_type.utf16_len with
      | some hex_len =>
          limitToChoose (apply_buffer_limit sql_type hex_len max_text_size)
            TextStrategy.wideText
      | none => .panicked
    else
      match sql_type.utf8_len with
      | some octet_len =>
          limitToChoose (apply_buffer_limit sql_type octet_len max_text_size)
            TextStrategy.narrowText
      | none => .panicked
  else
    let queried : Except ColumnFailure Int :=
      match sql_type.display_size with
      | some ds => .ok (ds : Int)
      | none =>
          match lazy_display_size with
          | .ok v => .ok v
          | .error source => .error (.unknownStringLength sql_type source)
    match queried with
    | .error e => .err e
    | .ok v =>
        if v < 0 then .panicked
        else
          limitToChoose (apply_buffer_limit sql_type v.toNat max_text_size)
            TextStrategy.narrowText

/-- Conversion-time failure of the source (MappingError). The only
variant carries the timestamp that fell outside the nanosecond-precision
window; the calendar timestamp is modelled by its signed nanosecond
count. -/
inductive MappingError where
  | outOfRangeTimestampNs (value : Int)
deriving DecidableEq, Repr

/-- Result of a fill_arrow_array call. Rust panics (the .unwrap() on a
UTF-16 decode and the .expect() on UTF-8 validation) are modelled as a
constructor of their own, distinct from the typed MappingError that the
Result channel can carry. -/
inductive ConvResult (α : Type) where
  | ok (array : α)
  | err (e : MappingError)
  | panicked
deriving DecidableEq, Repr

/-- Raw nullable column view: one slot per row, holding the slot bytes
(as a value of the item type) together with the presence indicator. The
slot value of an absent row is arbitrary leftover buffer content. -/
abbrev NullableView (α : Type) : Type := List (α × Bool)

/-- The as_nullable_slice accessor of the ODBC buffer: yields one Option
per row, exposing the slot value only when the presence indicator marks
the row present; the bytes of absent slots are never exposed. -/
def asNullableSlice {α : Type} (view : NullableView α) : List (Option α) :=
  view.map (fun slot => if slot.2 then some slot.1 else none)

/-- The fill_arrow_array of NonNullDirectStrategy: the typed slice is
bulk-appended to the builder (append_slice marks every value valid), and
the finished array is returned; no per-row branching and no failure
path. -/
def nonNullDirectFill {α : Type} (slice : List α) : ConvResult (List (Option α)) :=
  .ok (slice.map some)

/-- The fill_arrow_array of NullableDirectStrategy: iterates the
nullable slice and appends each Option unchanged (append_option); no
transform is invoked and no failure path exists. -/
def nullableDirectFill {α : Type} (view : NullableView α) :
    ConvResult (List (Option α)) :=
  .ok (asNullableSlice view)

/-- Loop body of NonNullableStrategy::fill_arrow_array: each source
value is passed through the captured odbc_to_arrow function; the
question-mark operator aborts with the first mapping error, otherwise
the mapped value is appended to the builder as a valid entry. -/
def nonNullMappedGo {O P : Type} (f : O → Except MappingError P)
    (builder : List (Option P)) : List O → ConvResult (List (Option P))
  | [] => .ok builder
  | v :: rest =>
      match f v with
      | .error e => .err e
      | .ok p => nonNullMappedGo f (builder ++ [some p]) rest

/-- The fill_arrow_array of NonNullableStrategy, starting from the empty
builder. -/
def nonNullMappedFill {O P : Type} (f : O → Except MappingError P)
    (slice : List O) : ConvResult (List (Option P)) :=
  nonNullMappedGo f [] slice

/-- Loop body of NullableStrategy::fill_arrow_array: per row,
odbc_opt.map(f).transpose()? maps only a present value through the
captured function (aborting on its error) and appends the resulting
Option; an absent row appends null without touching the function. -/
def nullableMappedGo {O P : Type} (f : O → Except MappingError P)
    (builder : List (Option P)) : List (Option O) → ConvResult (List (Option P))
  | [] => .ok builder
  | none :: rest => nullableMappedGo f (builder ++ [none]) rest
  | some v :: rest =>
      match f v with
      | .error e => .err e
      | .ok p => nullableMappedGo f (builder ++ [some p]) rest

/-- The fill_arrow_array of NullableStrategy: runs the loop over the
nullable slice of the raw view, starting from the empty builder. -/
def nullableMappedFill {O P : Type} (f : O → Except MappingError P)
    (view : NullableView O) : ConvResult (List (Option P)) :=
  nullableMappedGo f [] (asNullableSlice view)

/-- Decoder with the semantics of Rust char::decode_utf16 driven to
completion by .unwrap(): a unit outside the surrogate range is a scalar
value; a high surrogate must be followed by a low surrogate, the pair
combining into a supplementary scalar value; an unpaired surrogate is a
decode error (none). Returns the decoded scalar values. -/
def decodeUtf16 : List Nat → Option (List Nat)
  | [] => some []
  | u :: rest =>
      if u < 0xD800 || 0xE000 ≤ u then
        (decodeUtf16 rest).map (u :: ·)
      else if u < 0xDC00 then
        match rest with
        | u2 :: rest2 =>
            if 0xDC00 ≤ u2 && u2 < 0xE000 then
              (decodeUtf16 rest2).map
                ((0x10000 + (u - 0xD800) * 0x400 + (u2 - 0xDC00)) :: ·)
            else none
        | [] => none
      else none

/-- Validator with the semantics of Rust std::str::from_utf8: accepts
exactly the well-formed UTF-8 sequences (no overlong forms, no encoded
surrogates, nothing above U+10FFFF) and returns the decoded scalar
values. -/
def utf8Decode : List Nat → Option (List Nat)
  | [] => some []
  | b0 :: rest =>
      if b0 < 0x80 then
        (utf8Decode rest).map (b0 :: ·)
      else if b0 < 0xC2 then none
      else if b0 < 0xE0 then
        match rest with
        | b1 :: rest2 =>
            if 0x80 ≤ b1 && b1 < 0xC0 then
              (utf8Decode rest2).map (((b0 - 0xC2) * 0x40 + 0x80 + (b1 - 0x80)) :: ·)
            else none
        | [] => none
      else if b0 < 0xF0 then
        match rest with
        | b1 :: b2 :: rest3 =>
            if ((b0 = 0xE0 && 0xA0 ≤ b1 && b1 < 0xC0) ||
                (b0 ≠ 0xE0 && b0 ≠ 0xED && 0x80 ≤ b1 && b1 < 0xC0) ||
                (b0 = 0xED && 0x80 ≤ b1 && b1 < 0xA0)) &&
               (0x80 ≤ b2 && b2 < 0xC0) then
              (utf8Decode rest3).map
                (((b0 - 0xE0) * 0x1000 + (b1 - 0x80) * 0x40 + (b2 - 0x80)) :: ·)
            else none
        | _ => none
      else if b0 < 0xF5 then
        match rest with
        | b1 :: b2 :: b3 :: rest4 =>
            if ((b0 = 0xF0 && 0x90 ≤ b1 && b1 < 0xC0) ||
                (b0 ≠ 0xF0 && b0 ≠ 0xF4 && 0x80 ≤ b1 && b1 < 0xC0) ||
                (b0 = 0xF4 && 0x80 ≤ b1 && b1 < 0x90)) &&
               (0x80 ≤ b2 && b2 < 0xC0) && (0x80 ≤ b3 && b3 < 0xC0) then
              (utf8Decode rest4).map
                (((b0 - 0xF0) * 0x40000 + (b1 - 0x80) * 0x1000 +
                  (b2 - 0x80) * 0x40 + (b3 - 0x80)) :: ·)
            else none
        | _ => none
      else none

/-- Loop body of WideText::fill_arrow_array: an absent value appends
null with no decode work; a present value is decoded from UTF-16 into
the scratch string, where the per-character .unwrap() panics on the
first malformed sequence, and the decoded text is appended as a valid
entry. Output strings are represented by their scalar-value lists. -/
def wideTextGo (builder : List (Option (List Nat))) :
    List (Option (List Nat)) → ConvResult (List (Option (List Nat)))
  | [] => .ok builder
  | none :: rest => wideTextGo (builder ++ [none]) rest
  | some units :: rest =>
      match decodeUtf16 units with
      | none => .panicked
      | some cps => wideTextGo (builder ++ [some cps]) rest

/-- The fill_arrow_array of WideText: the max_str_len field only sizes
the builder's initial capacity (data_capacity), which never affects the
produced values, so it is unused past that role. -/
def wideTextFill (max_str_len : Nat) (view : List (Option (List Nat))) :
    ConvResult (List (Option (List Nat))) :=
  let _data_capacity := max_str_len * view.length
  wideTextGo [] view

/-- Loop body of NarrowText::fill_arrow_array: per value,
value.map(from_utf8) either panics through .expect() on invalid UTF-8 or
yields the same bytes as a str, which append_option appends (null for an
absent value). -/
def narrowTextGo (builder : List (Option (List Nat))) :
    List (Option (List Nat)) → ConvResult (List (Option (List Nat)))
  | [] => .ok builder
  | none :: rest => narrowTextGo (builder ++ [none]) rest
  | some bytes :: rest =>
      match utf8Decode bytes with
      | none => .panicked
      | some _ => narrowTextGo (builder ++ [some bytes]) rest

/-- The fill_arrow_array of NarrowText; as for WideText, max_str_len
only pre-sizes the builder capacity. -/
def narrowTextFill (max_str_len : Nat) (view : List (Option (List Nat))) :
    ConvResult (List (Option (List Nat))) :=
  let _data_capacity := max_str_len * view.length
  narrowTextGo [] view

/-- Wide-or-narrow classification of a chosen strategy. -/
def TextStrategy.isWide : TextStrategy → Bool
  | wideText _ => true
  | narrowText _ => false

theorem limitToChoose_ok (r : Except ColumnFailure Nat)
    (mk : Nat → TextStrategy) (s : TextStrategy)
    (h : limitToChoose r mk = .ok s) : ∃ n, r = .ok n ∧ s = mk n := by
  cases r with
  | ok n =>
      refine ⟨n, rfl, ?_⟩
      simpa [limitToChoose] using h.symm
  | error e => simp [limitToChoose] at h

theorem limitToChoose_ne_panicked (r : Except ColumnFailure Nat)
    (mk : Nat → TextStrategy) : limitToChoose r mk ≠ .panicked := by
  cases r <;> simp [limitToChoose]

/-- C1 counterexample: the encoding choice of choose_text_strategy
depends only on the platform, not on the declared SQL text type. On a
non-Windows platform a wide-declared WVarchar column still gets the
narrow strategy, and on Windows a narrow-declared Varchar column gets
the wide strategy — refuting both the claim that wide is always used for
wide-declared types independent of platform and the claim that narrow is
used everywhere for narrow-declared types. -/
theorem choose_text_strategy_encoding_ignores_declared_width :
    choose_text_strategy false (.wVarchar 5) (.ok 0) none =
      .ok (.narrowText 5) ∧
    choose_text_strategy false (.wVarchar 5) (.ok 0) none ≠
      .ok (.wideText 5) ∧
    choose_text_strategy true (.varchar 5) (.ok 0) none =
      .ok (.wideText 5) := by
  refine ⟨rfl, by decide, rfl⟩

/-- C1 (amended): for every SQL text column for which
choose_text_strategy succeeds, the selected encoding is decided by the
platform class alone: the wide (UTF-16) strategy on Windows-class
platforms and the narrow (assumed UTF-8) strategy on non-Windows-class
platforms, for narrow- and wide-declared SQL text types alike. -/
theorem choose_text_strategy_encoding_by_platform
    (windows : Bool) (sql_type : OdbcDataType)
    (lazy_display_size : Except OdbcError Int) (max_text_size : Option Nat)
    (s : TextStrategy) (htext : sql_type.is_text = true)
    (hok : choose_text_strategy windows sql_type lazy_display_size
      max_text_size = .ok s) :
    (windows = true → s.isWide = true) ∧
    (windows = false → s.isWide = false) := by
  simp only [choose_text_strategy, htext, if_true] at hok
  cases windows with
  | true =>
      refine ⟨fun _ => ?_, by simp⟩
      simp only [if_true] at hok
      cases hu : sql_type.utf16_len with
      | none => rw [hu] at hok; exact absurd hok (by simp)
      | some l =>
          rw [hu] at hok
          obtain ⟨n, -, hs⟩ := limitToChoose_ok _ _ _ hok
          simp [hs, TextStrategy.isWide]
  | false =>
      refine ⟨by simp, fun _ => ?_⟩
      simp only [Bool.false_eq_true, if_false] at hok
      cases hu : sql_type.utf8_len with
      | none => rw [hu] at hok; exact absurd hok (by simp)
      | some l =>
          rw [hu] at hok
          obtain ⟨n, -, hs⟩ := limitToChoose_ok _ _ _ hok
          simp [hs, TextStrategy.isWide]

/-- C1 witness: concrete strategy selections on each platform class. -/
theorem choose_text_strategy_encoding_by_platform_witness :
    (TextStrategy.wideText 5).isWide = true ∧
    (TextStrategy.narrowText 7).isWide = false := by
  constructor
  · exact (choose_text_strategy_encoding_by_platform true (.varchar 5)
      (.ok 0) none (.wideText 5) rfl rfl).1 rfl
  · exact (choose_text_strategy_encoding_by_platform false (.char 7)
      (.ok 0) none (.narrowText 7) rfl rfl).2 rfl

/-- C2: the buffer-limit resolution of choose_text_strategy. With
computed length L and optional operator maximum C: min L c when C is set
and L is positive; L when C is unset and L is positive; c when C is set
and L is zero; and the zero-sized-column error when C is unset and L is
zero. -/
theorem apply_buffer_limit_resolution (sql_type : OdbcDataType)
    (L : Nat) (C : Option Nat) :
    (∀ c, C = some c → 0 < L →
        apply_buffer_limit sql_type L C = .ok (min L c)) ∧
    (C = none → 0 < L → apply_buffer_limit sql_type L C = .ok L) ∧
    (∀ c, C = some c → L = 0 → apply_buffer_limit sql_type L C = .ok c) ∧
    (C = none → L = 0 →
        apply_buffer_limit sql_type L C =
          .error (.zeroSizedColumn sql_type)) := by
  rcases L with - | l <;> rcases C with - | c <;>
    simp [apply_buffer_limit]

/-- C2 witness: the four worked examples of the spec, L = 10 with
maximum 5 gives 5, L = 10 alone gives 10, L = 0 alone is the
zero-sized-column error, and L = 0 with maximum 5 gives 5. -/
theorem apply_buffer_limit_resolution_witness :
    apply_buffer_limit (.char 10) 10 (some 5) = .ok 5 ∧
    apply_buffer_limit (.char 10) 10 none = .ok 10 ∧
    apply_buffer_limit (.char 0) 0 none =
      .error (.zeroSizedColumn (.char 0)) ∧
    apply_buffer_limit (.char 0) 0 (some 5) = .ok 5 := by
  refine ⟨?_, ?_, ?_, ?_⟩
  · have := (apply_buffer_limit_resolution (.char 10) 10 (some 5)).1 5 rfl
      (by decide)
    simpa using this
  · exact (apply_buffer_limit_resolution (.char 10) 10 none).2.1 rfl (by decide)
  · exact (apply_buffer_limit_resolution (.char 0) 0 none).2.2.2 rfl rfl
  · exact (apply_buffer_limit_resolution (.char 0) 0 (some 5)).2.2.1 5 rfl rfl

/-- C7 counterexample: for a non-text SQL type with no reported display
size, a negative value returned by the lazy display-size query makes
choose_text_strategy panic through the failed isize-to-usize unwrap,
rather than yielding a well-defined non-negative length. -/
theorem choose_text_strategy_negative_display_size_panics :
    choose_text_strategy false (.other none) (.ok (-1)) (some 5) =
      .panicked := by
  rfl

/-- C7 (amended): for a non-text SQL type with no fixed encoded length,
choose_text_strategy evaluates the lazy display-size query; a
non-negative result is converted to the buffer length through the
buffer-limit step without panicking, while a negative result panics on
the unchecked integer conversion instead of being coerced. -/
theorem choose_text_strategy_display_size_coercion
    (windows : Bool) (max_text_size : Option Nat) (i : Int) :
    (0 ≤ i →
        choose_text_strategy windows (.other none) (.ok i) max_text_size =
          limitToChoose
            (apply_buffer_limit (.other none) i.toNat max_text_size)
            TextStrategy.narrowText ∧
        choose_text_strategy windows (.other none) (.ok i) max_text_size ≠
          .panicked) ∧
    (i < 0 →
        choose_text_strategy windows (.other none) (.ok i) max_text_size =
          .panicked) := by
  constructor
  · intro hpos
    have hnotlt : ¬ i < 0 := not_lt.mpr hpos
    constructor
    · simp [choose_text_strategy, OdbcDataType.is_text, OdbcDataType.is_narrow,
        OdbcDataType.is_wide, OdbcDataType.display_size, hnotlt]
    · rw [show choose_text_strategy windows (.other none) (.ok i)
          max_text_size =
          limitToChoose
            (apply_buffer_limit (.other none) i.toNat max_text_size)
            TextStrategy.narrowText by
        simp [choose_text_strategy, OdbcDataType.is_text,
          OdbcDataType.is_narrow, OdbcDataType.is_wide,
          OdbcDataType.display_size, hnotlt]]
      exact limitToChoose_ne_panicked _ _
  · intro hneg
    simp [choose_text_strategy, OdbcDataType.is_text, OdbcDataType.is_narrow,
      OdbcDataType.is_wide, OdbcDataType.display_size, hneg]

/-- C7 witness: a lazily queried display size of 7 yields the narrow
strategy of length 7 without panic, and a query result of minus two
panics. -/
theorem choose_text_strategy_display_size_coercion_witness :
    choose_text_strategy false (.other none) (.ok 7) none =
      limitToChoose (apply_buffer_limit (.other none) (7 : Int).toNat none)
        TextStrategy.narrowText ∧
    choose_text_strategy false (.other none) (.ok 7) none ≠ .panicked ∧
    choose_text_strategy true (.other none) (.ok (-2)) none = .panicked := by
  refine ⟨((choose_text_strategy_display_size_coercion false none 7).1
      (by decide)).1,
    ((choose_text_strategy_display_size_coercion false none 7).1
      (by decide)).2,
    (choose_text_strategy_display_size_coercion true none (-2)).2
      (by decide)⟩

theorem nonNullMappedGo_ok_length {O P : Type} (f : O → Except MappingError P) :
    ∀ (l : List O) (b out : List (Option P)),
      nonNullMappedGo f b l = .ok out → out.length = b.length + l.length := by
  intro l
  induction l with
  | nil =>
      intro b out h
      simp only [nonNullMappedGo, ConvResult.ok.injEq] at h
      simp [← h]
  | cons v rest ih =>
      intro b out h
      simp only [nonNullMappedGo] at h
      cases hf : f v with
      | error e => rw [hf] at h; exact absurd h (by simp)
      | ok p =>
          rw [hf] at h
          have := ih (b ++ [some p]) out h
          simp only [List.length_append, List.length_cons,
            List.length_nil] at this ⊢
          omega

theorem nonNullMappedGo_error_at {O P : Type} (f : O → Except MappingError P) :
    ∀ (l : List O) (i : Nat) (h : i < l.length) (e : MappingError)
      (b : List (Option P)),
      (∀ j (hj : j < i), ∃ p, f (l.get ⟨j, hj.trans h⟩) = .ok p) →
      f (l.get ⟨i, h⟩) = .error e →
      nonNullMappedGo f b l = .err e := by
  intro l
  induction l with
  | nil => intro i h; exact absurd h (by simp)
  | cons v rest ih =>
      intro i h e b hpast herr
      cases i with
      | zero =>
          simp only [List.get] at herr
          simp [nonNullMappedGo, herr]
      | succ j =>
          obtain ⟨p, hp⟩ := hpast 0 (Nat.succ_pos j)
          simp only [List.get] at hp herr
          simp only [nonNullMappedGo, hp]
          exact ih j (Nat.lt_of_succ_lt_succ h) e (b ++ [some p])
            (fun k hk => hpast (k + 1) (Nat.succ_lt_succ hk)) herr

/-- C4: for the mapped non-null strategy, if the captured mapping
function fails on row i with error e and succeeds on every earlier row,
the conversion returns exactly that error and no array. -/
theorem non_null_mapped_first_error_aborts {O P : Type}
    (f : O → Except MappingError P) (slice : List O) (i : Nat)
    (h : i < slice.length) (e : MappingError)
    (hpast : ∀ j (hj : j < i), ∃ p, f (slice.get ⟨j, hj.trans h⟩) = .ok p)
    (herr : f (slice.get ⟨i, h⟩) = .error e) :
    nonNullMappedFill f slice = .err e :=
  nonNullMappedGo_error_at f slice i h e [] hpast herr

/-- C4 witness: a mapping failing on the middle row of three aborts the
conversion with that row's error. -/
theorem non_null_mapped_first_error_aborts_witness :
    nonNullMappedFill
      (fun n : Nat =>
        if n = 1 then .error (.outOfRangeTimestampNs 7) else .ok n)
      [5, 1, 2] = .err (.outOfRangeTimestampNs 7) := by
  refine non_null_mapped_first_error_aborts _ [5, 1, 2] 1 (by decide)
    (.outOfRangeTimestampNs 7) ?_ rfl
  intro j hj
  have hj0 : j = 0 := by omega
  subst hj0
  exact ⟨5, rfl⟩

theorem nullableMappedGo_ok_shape {O P : Type} (f : O → Except MappingError P) :
    ∀ (l : List (Option O)) (b out : List (Option P)),
      nullableMappedGo f b l = .ok out →
      ∃ t, out = b ++ t ∧ t.length = l.length ∧
        ∀ i (h : i < l.length) (h' : i < t.length),
          l.get ⟨i, h⟩ = none → t.get ⟨i, h'⟩ = none := by
  intro l
  induction l with
  | nil =>
      intro b out h
      simp only [nullableMappedGo, ConvResult.ok.injEq] at h
      exact ⟨[], by simp [← h], by simp, by simp⟩
  | cons o rest ih =>
      intro b out h
      cases o with
      | none =>
          simp only [nullableMappedGo] at h
          obtain ⟨t, ht, hlen, hnull⟩ := ih (b ++ [none]) out h
          refine ⟨none :: t, by simp [ht], by simp [hlen], ?_⟩
          intro i h1 h2 hn
          cases i with
          | zero => rfl
          | succ j =>
              exact hnull j (Nat.lt_of_succ_lt_succ h1)
                (Nat.lt_of_succ_lt_succ h2) hn
      | some v =>
          simp only [nullableMappedGo] at h
          cases hf : f v with
          | error e => rw [hf] at h; exact absurd h (by simp)
          | ok p =>
              rw [hf] at h
              obtain ⟨t, ht, hlen, hnull⟩ := ih (b ++ [some p]) out h
              refine ⟨some p :: t, by simp [ht], by simp [hlen], ?_⟩
              intro i h1 h2 hn
              cases i with
              | zero => exact absurd hn (by simp [List.get])
              | succ j =>
                  exact hnull j (Nat.lt_of_succ_lt_succ h1)
                    (Nat.lt_of_succ_lt_succ h2) hn

theorem nullableMappedGo_all_none {O P : Type} (f : O → Except MappingError P) :
    ∀ (l : List (Option O)) (b : List (Option P)),
      (∀ o ∈ l, o = none) →
      nullableMappedGo f b l = .ok (b ++ List.replicate l.length none) := by
  intro l
  induction l with
  | nil => intro b _; simp [nullableMappedGo]
  | cons o rest ih =>
      intro b hall
      have ho : o = none := hall o (by simp)
      subst ho
      simp only [nullableMappedGo]
      rw [ih (b ++ [none]) (fun o hmem => hall o (by simp [hmem]))]
      simp [List.replicate_succ]

theorem nullableMappedGo_congr {O P : Type}
    (f g : O → Except MappingError P) :
    ∀ (l : List (Option O)) (b : List (Option P)),
      (∀ v, some v ∈ l → f v = g v) →
      nullableMappedGo f b l = nullableMappedGo g b l := by
  intro l
  induction l with
  | nil => intro b _; rfl
  | cons o rest ih =>
      intro b hagree
      cases o with
      | none =>
          simp only [nullableMappedGo]
          exact ih (b ++ [none]) (fun v hv => hagree v (by simp [hv]))
      | some v =>
          have hv : f v = g v := hagree v (by simp)
          simp only [nullableMappedGo, ← hv]
          cases f v with
          | error e => rfl
          | ok p => exact ih (b ++ [some p]) (fun w hw => hagree w (by simp [hw]))

theorem asNullableSlice_length {α : Type} (view : NullableView α) :
    (asNullableSlice view).length = view.length := by
  simp [asNullableSlice]

theorem asNullableSlice_get {α : Type} (view : NullableView α) (i : Nat)
    (h : i < view.length) (h' : i < (asNullableSlice view).length) :
    (asNullableSlice view).get ⟨i, h'⟩ =
      if (view.get ⟨i, h⟩).2 then some (view.get ⟨i, h⟩).1 else none := by
  simp [asNullableSlice, List.get_map]

/-- C3: for the mapped nullable strategy, all-absent views convert to
the all-null array for every mapping function (an always-failing mapping
included); whenever conversion succeeds, every absent row of the view is
null at the same index of the output; and the result only depends on the
mapping function's values at present rows, so the function is never
invoked on a row marked absent. -/
theorem nullable_mapped_absent_bypasses_mapping {O P : Type}
    (f : O → Except MappingError P) (view : NullableView O) :
    ((∀ slot ∈ view, slot.2 = false) →
        nullableMappedFill f view = .ok (List.replicate view.length none)) ∧
    (∀ out, nullableMappedFill f view = .ok out →
        out.length = view.length ∧
        ∀ i (h : i < view.length) (h' : i < out.length),
          (view.get ⟨i, h⟩).2 = false → out.get ⟨i, h'⟩ = none) ∧
    (∀ g : O → Except MappingError P,
        (∀ v, (v, true) ∈ view → f v = g v) →
        nullableMappedFill f view = nullableMappedFill g view) := by
  refine ⟨?_, ?_, ?_⟩
  · intro habsent
    have hnone : ∀ o ∈ asNullableSlice view, o = none := by
      intro o ho
      simp only [asNullableSlice, List.mem_map] at ho
      obtain ⟨slot, hslot, rfl⟩ := ho
      simp [habsent slot hslot]
    have := nullableMappedGo_all_none f (asNullableSlice view) [] hnone
    simpa [nullableMappedFill, asNullableSlice_length] using this
  · intro out hok
    obtain ⟨t, ht, hlen, hnull⟩ :=
      nullableMappedGo_ok_shape f (asNullableSlice view) [] out hok
    simp only [List.nil_append] at ht
    subst ht
    have hlen' : out.length = view.length := by
      rw [hlen, asNullableSlice_length]
    refine ⟨hlen', ?_⟩
    intro i h h' habs
    have hi : i < (asNullableSlice view).length := by
      rw [asNullableSlice_length]; exact h
    refine hnull i hi h' ?_
    rw [asNullableSlice_get view i h hi, habs]
    simp
  · intro g hagree
    refine nullableMappedGo_congr f g (asNullableSlice view) [] ?_
    intro v hv
    simp only [asNullableSlice, List.mem_map] at hv
    obtain ⟨slot, hslot, heq⟩ := hv
    by_cases hp : slot.2
    · simp only [hp, if_true, Option.some.injEq] at heq
      have : slot = (v, true) := by
        cases slot
        simp_all
      exact hagree v (this ▸ hslot)
    · simp [hp] at heq

/-- C3 witness: an all-absent two-row view converts to the all-null
array under an always-failing mapping function. -/
theorem nullable_mapped_absent_bypasses_mapping_witness :
    nullableMappedFill
      (fun _ : Nat => (.error (.outOfRangeTimestampNs 9) : Except MappingError Nat))
      [(5, false), (6, false)] = .ok [none, none] := by
  have := (nullable_mapped_absent_bypasses_mapping
      (fun _ : Nat =>
        (.error (.outOfRangeTimestampNs 9) : Except MappingError Nat))
      [(5, false), (6, false)]).1 (by decide)
  simpa using this

theorem wideTextGo_ok_shape :
    ∀ (l b out : List (Option (List Nat))),
      wideTextGo b l = .ok out →
      ∃ t, out = b ++ t ∧ t.length = l.length ∧
        ∀ i (h : i < l.length) (h' : i < t.length),
          (l.get ⟨i, h⟩ = none → t.get ⟨i, h'⟩ = none) ∧
          (∀ units, l.get ⟨i, h⟩ = some units →
            ∃ cps, decodeUtf16 units = some cps ∧
              t.get ⟨i, h'⟩ = some cps) := by
  intro l
  induction l with
  | nil =>
      intro b out h
      simp only [wideTextGo, ConvResult.ok.injEq] at h
      exact ⟨[], by simp [← h], by simp, by simp⟩
  | cons o rest ih =>
      intro b out h
      cases o with
      | none =>
          simp only [wideTextGo] at h
          obtain ⟨t, ht, hlen, hget⟩ := ih (b ++ [none]) out h
          refine ⟨none :: t, by simp [ht], by simp [hlen], ?_⟩
          intro i h1 h2
          cases i with
          | zero => exact ⟨fun _ => rfl, fun units hu => by simp at hu⟩
          | succ j =>
              exact hget j (Nat.lt_of_succ_lt_succ h1)
                (Nat.lt_of_succ_lt_succ h2)
      | some units =>
          simp only [wideTextGo] at h
          cases hd : decodeUtf16 units with
          | none => rw [hd] at h; exact absurd h (by simp)
          | some cps =>
              rw [hd] at h
              obtain ⟨t, ht, hlen, hget⟩ := ih (b ++ [some cps]) out h
              refine ⟨some cps :: t, by simp [ht], by simp [hlen], ?_⟩
              intro i h1 h2
              cases i with
              | zero =>
                  refine ⟨fun hcontra => by simp at hcontra, ?_⟩
                  intro units' hu
                  have : units' = units := by
                    simpa using hu.symm
                  subst this
                  exact ⟨cps, hd, rfl⟩
              | succ j =>
                  exact hget j (Nat.lt_of_succ_lt_succ h1)
                    (Nat.lt_of_succ_lt_succ h2)

theorem wideTextGo_malformed :
    ∀ (l b : List (Option (List Nat))) (units : List Nat),
      some units ∈ l → decodeUtf16 units = none →
      wideTextGo b l = .panicked := by
  intro l
  induction l with
  | nil => intro b units hmem; exact absurd hmem (by simp)
  | cons o rest ih =>
      intro b units hmem hbad
      cases o with
      | none =>
          have : some units ∈ rest := by
            cases hmem with
            | tail _ hm => exact hm
          simp only [wideTextGo]
          exact ih (b ++ [none]) units this hbad
      | some u =>
          simp only [wideTextGo]
          cases hmem with
          | head =>
              rw [hbad]
          | tail _ hm =>
              cases hd : decodeUtf16 u with
              | none => rfl
              | some cps => exact ih (b ++ [some cps]) units hm hbad

/-- C5: during wide-text conversion a malformed UTF-16 value makes the
strategy panic on the failed decode, so it never yields a successful
array; and whenever conversion succeeds, every present output entry is
the exact decode of the corresponding well-formed input (no replacement
character or substituted value) while absent entries pass to null. -/
theorem wide_text_malformed_fails_loudly (max_str_len : Nat)
    (view : List (Option (List Nat))) :
    ((∃ units, some units ∈ view ∧ decodeUtf16 units = none) →
        wideTextFill max_str_len view = .panicked) ∧
    (∀ out, wideTextFill max_str_len view = .ok out →
        out.length = view.length ∧
        ∀ i (h : i < view.length) (h' : i < out.length),
          (view.get ⟨i, h⟩ = none → out.get ⟨i, h'⟩ = none) ∧
          (∀ units, view.get ⟨i, h⟩ = some units →
            ∃ cps, decodeUtf16 units = some cps ∧
              out.get ⟨i, h'⟩ = some cps)) := by
  constructor
  · rintro ⟨units, hmem, hbad⟩
    exact wideTextGo_malformed view [] units hmem hbad
  · intro out hok
    obtain ⟨t, ht, hlen, hget⟩ := wideTextGo_ok_shape view [] out hok
    simp only [List.nil_append] at ht
    subst ht
    exact ⟨hlen, hget⟩

/-- C5 witness: a lone high surrogate panics the conversion, and the
well-formed code units of the string AB decode to exactly those scalar
values at their index. -/
theorem wide_text_malformed_fails_loudly_witness :
    wideTextFill 2 [some [0xD800]] = .panicked ∧
    ([some [65, 66], none] : List (Option (List Nat))).length = 2 ∧
    (∃ cps, decodeUtf16 [65, 66] = some cps ∧
      ([some [65, 66], none] : List (Option (List Nat))).get
        ⟨0, by decide⟩ = some cps) := by
  refine ⟨?_, ?_, ?_⟩
  · exact (wide_text_malformed_fails_loudly 2 [some [0xD800]]).1
      ⟨[0xD800], by simp, rfl⟩
  · exact ((wide_text_malformed_fails_loudly 2
      [some [65, 66], none]).2 [some [65, 66], none] rfl).1
  · exact (((wide_text_malformed_fails_loudly 2
      [some [65, 66], none]).2 [some [65, 66], none] rfl).2 0 (by decide)
        (by decide)).2 [65, 66] rfl

theorem narrowTextGo_ok_eq :
    ∀ (l b out : List (Option (List Nat))),
      narrowTextGo b l = .ok out → out = b ++ l := by
  intro l
  induction l with
  | nil =>
      intro b out h
      simp only [narrowTextGo, ConvResult.ok.injEq] at h
      simp [← h]
  | cons o rest ih =>
      intro b out h
      cases o with
      | none =>
          simp only [narrowTextGo] at h
          have := ih (b ++ [none]) out h
          simp [this]
      | some bytes =>
          simp only [narrowTextGo] at h
          cases hd : utf8Decode bytes with
          | none => rw [hd] at h; exact absurd h (by simp)
          | some cps =>
              rw [hd] at h
              have := ih (b ++ [some bytes]) out h
              simp [this]

theorem narrowTextGo_invalid :
    ∀ (l b : List (Option (List Nat))) (bytes : List Nat),
      some bytes ∈ l → utf8Decode bytes = none →
      narrowTextGo b l = .panicked := by
  intro l
  induction l with
  | nil => intro b bytes hmem; exact absurd hmem (by simp)
  | cons o rest ih =>
      intro b bytes hmem hbad
      cases o with
      | none =>
          have : some bytes ∈ rest := by
            cases hmem with
            | tail _ hm => exact hm
          simp only [narrowTextGo]
          exact ih (b ++ [none]) bytes this hbad
      | some u =>
          simp only [narrowTextGo]
          cases hmem with
          | head => rw [hbad]
          | tail _ hm =>
              cases hd : utf8Decode u with
              | none => rfl
              | some cps => exact ih (b ++ [some u]) bytes hm hbad

theorem narrowTextGo_ne_err :
    ∀ (l b : List (Option (List Nat))) (e : MappingError),
      narrowTextGo b l ≠ .err e := by
  intro l
  induction l with
  | nil => intro b e; simp [narrowTextGo]
  | cons o rest ih =>
      intro b e
      cases o with
      | none => simpa only [narrowTextGo] using ih (b ++ [none]) e
      | some bytes =>
          simp only [narrowTextGo]
          cases hd : utf8Decode bytes with
          | none => simp
          | some cps => exact ih (b ++ [some bytes]) e

theorem narrowTextGo_ok_of_valid :
    ∀ (l b : List (Option (List Nat))),
      (∀ bytes, some bytes ∈ l → (utf8Decode bytes).isSome) →
      narrowTextGo b l = .ok (b ++ l) := by
  intro l
  induction l with
  | nil => intro b _; simp [narrowTextGo]
  | cons o rest ih =>
      intro b hvalid
      cases o with
      | none =>
          simp only [narrowTextGo]
          rw [ih (b ++ [none]) (fun bytes hm => hvalid bytes (by simp [hm]))]
          simp
      | some bytes =>
          have hv := hvalid bytes (by simp)
          simp only [narrowTextGo]
          cases hd : utf8Decode bytes with
          | none => rw [hd] at hv; simp at hv
          | some cps =>
              rw [ih (b ++ [some bytes])
                (fun bs hm => hvalid bs (by simp [hm]))]
              simp

/-- C6: during narrow-text conversion a present value with invalid
UTF-8 bytes makes the strategy panic through the contract-violation
expectation; the conversion never returns an ordinary recoverable
mapping error; and when every present value is valid UTF-8 the
conversion succeeds with the bytes passed through unchanged. -/
theorem narrow_text_invalid_utf8_panics (max_str_len : Nat)
    (view : List (Option (List Nat))) :
    ((∃ bytes, some bytes ∈ view ∧ utf8Decode bytes = none) →
        narrowTextFill max_str_len view = .panicked) ∧
    (∀ e, narrowTextFill max_str_len view ≠ .err e) ∧
    ((∀ bytes, some bytes ∈ view → (utf8Decode bytes).isSome) →
        narrowTextFill max_str_len view = .ok view) := by
  refine ⟨?_, ?_, ?_⟩
  · rintro ⟨bytes, hmem, hbad⟩
    exact narrowTextGo_invalid view [] bytes hmem hbad
  · intro e
    exact narrowTextGo_ne_err view [] e
  · intro hvalid
    have := narrowTextGo_ok_of_valid view [] hvalid
    simpa using this

/-- C6 witness: an invalid lead byte panics the conversion, the result
on that input is not a recoverable mapping error, and a valid ASCII
value converts successfully with its bytes unchanged. -/
theorem narrow_text_invalid_utf8_panics_witness :
    narrowTextFill 3 [some [0x41], some [0xFF]] = .panicked ∧
    narrowTextFill 3 [some [0x41], some [0xFF]] ≠
      .err (.outOfRangeTimestampNs 0) ∧
    narrowTextFill 3 [some [0x41], none] = .ok [some [0x41], none] := by
  refine ⟨?_, ?_, ?_⟩
  · exact (narrow_text_invalid_utf8_panics 3 [some [0x41], some [0xFF]]).1
      ⟨[0xFF], by simp, rfl⟩
  · exact (narrow_text_invalid_utf8_panics 3
      [some [0x41], some [0xFF]]).2.1 (.outOfRangeTimestampNs 0)
  · refine (narrow_text_invalid_utf8_panics 3 [some [0x41], none]).2.2 ?_
    intro bytes hmem
    have : bytes = [0x41] := by simpa using hmem
    subst this
    rfl

/-- C8: for the direct non-null strategy, conversion always succeeds and
the output array is exactly the input slice — same length, and every
input value appears unchanged (as a valid entry) at its own index. -/
theorem non_null_direct_preserves_values {α : Type} (slice : List α) :
    nonNullDirectFill slice = .ok (slice.map some) ∧
    (slice.map some).length = slice.length ∧
    ∀ i (h : i < slice.length) (h' : i < (slice.map some).length),
      (slice.map some).get ⟨i, h'⟩ = some (slice.get ⟨i, h⟩) := by
  refine ⟨rfl, by simp, ?_⟩
  intro i h h'
  simp

/-- C8 witness: the two-row slice rebuilds value by value at the same
indices. -/
theorem non_null_direct_preserves_values_witness :
    nonNullDirectFill ([3, 4] : List Int) = .ok [some 3, some 4] ∧
    ([some 3, some 4] : List (Option Int)).get ⟨0, by decide⟩ = some 3 ∧
    ([some 3, some 4] : List (Option Int)).get ⟨1, by decide⟩ = some 4 := by
  refine ⟨(non_null_direct_preserves_values [3, 4]).1, ?_, ?_⟩
  · exact (non_null_direct_preserves_values ([3, 4] : List Int)).2.2 0
      (by decide) (by decide)
  · exact (non_null_direct_preserves_values ([3, 4] : List Int)).2.2 1
      (by decide) (by decide)

/-- C9: for the direct nullable strategy, conversion always succeeds;
a slot whose presence indicator marks it absent yields null at that
index whatever its slot value holds, and a present slot's value is
copied unchanged to the same index. -/
theorem nullable_direct_null_iff_absent {α : Type} (view : NullableView α) :
    nullableDirectFill view = .ok (asNullableSlice view) ∧
    (asNullableSlice view).length = view.length ∧
    ∀ i (h : i < view.length) (h' : i < (asNullableSlice view).length),
      ((view.get ⟨i, h⟩).2 = false →
        (asNullableSlice view).get ⟨i, h'⟩ = none) ∧
      ((view.get ⟨i, h⟩).2 = true →
        (asNullableSlice view).get ⟨i, h'⟩ = some (view.get ⟨i, h⟩).1) := by
  refine ⟨rfl, asNullableSlice_length view, ?_⟩
  intro i h h'
  rw [asNullableSlice_get view i h h']
  constructor
  · intro habs
    simp only [List.get_eq_getElem] at habs
    simp [habs]
  · intro hpres
    simp only [List.get_eq_getElem] at hpres
    simp [hpres]

/-- C9 witness: an absent slot carrying leftover value 9 still becomes
null, and the present slot's value 5 is copied to its index. -/
theorem nullable_direct_null_iff_absent_witness :
    nullableDirectFill ([(5, true), (9, false)] : NullableView Int) =
      .ok [some 5, none] ∧
    (asNullableSlice ([(5, true), (9, false)] : NullableView Int)).get
      ⟨1, by decide⟩ = none ∧
    (asNullableSlice ([(5, true), (9, false)] : NullableView Int)).get
      ⟨0, by decide⟩ = some 5 := by
  refine ⟨?_, ?_, ?_⟩
  · exact (nullable_direct_null_iff_absent
      ([(5, true), (9, false)] : NullableView Int)).1
  · exact ((nullable_direct_null_iff_absent
      ([(5, true), (9, false)] : NullableView Int)).2.2 1 (by decide)
        (by decide)).1 rfl
  · exact ((nullable_direct_null_iff_absent
      ([(5, true), (9, false)] : NullableView Int)).2.2 0 (by decide)
        (by decide)).2 rfl

/-- C10: for every strategy variant, whenever conversion succeeds the
returned array has exactly one entry per entry of the input view: the
output length equals the view length for the direct non-null, direct
nullable, mapped non-null, mapped nullable, narrow-text and wide-text
strategies. -/
theorem fill_arrow_array_preserves_length {α O P : Type}
    (f : O → Except MappingError P) (slice : List α)
    (nview : NullableView α) (mslice : List O) (mview : NullableView O)
    (mn mw : Nat) (tview wview : List (Option (List Nat))) :
    (∀ out, nonNullDirectFill slice = .ok out →
        out.length = slice.length) ∧
    (∀ out, nullableDirectFill nview = .ok out →
        out.length = nview.length) ∧
    (∀ out, nonNullMappedFill f mslice = .ok out →
        out.length = mslice.length) ∧
    (∀ out, nullableMappedFill f mview = .ok out →
        out.length = mview.length) ∧
    (∀ out, narrowTextFill mn tview = .ok out →
        out.length = tview.length) ∧
    (∀ out, wideTextFill mw wview = .ok out →
        out.length = wview.length) := by
  refine ⟨?_, ?_, ?_, ?_, ?_, ?_⟩
  · intro out h
    simp only [nonNullDirectFill, ConvResult.ok.injEq] at h
    simp [← h]
  · intro out h
    simp only [nullableDirectFill, ConvResult.ok.injEq] at h
    simp [← h, asNullableSlice_length]
  · intro out h
    have := nonNullMappedGo_ok_length f mslice [] out
      (by simpa [nonNullMappedFill] using h)
    simpa using this
  · intro out h
    obtain ⟨t, ht, hlen, -⟩ := nullableMappedGo_ok_shape f
      (asNullableSlice mview) [] out
      (by simpa [nullableMappedFill] using h)
    simp [ht, hlen, asNullableSlice_length]
  · intro out h
    have := narrowTextGo_ok_eq tview [] out
      (by simpa [narrowTextFill] using h)
    simp [this]
  · intro out h
    obtain ⟨t, ht, hlen, -⟩ := wideTextGo_ok_shape wview [] out
      (by simpa [wideTextFill] using h)
    simp [ht, hlen]

/-- C10 witness: concrete two-row conversions through all six strategy
variants preserve the view length. -/
theorem fill_arrow_array_preserves_length_witness :
    ([some 3, some 4] : List (Option Int)).length =
      ([3, 4] : List Int).length ∧
    ([some 5, none] : List (Option Int)).length =
      ([(5, true), (9, false)] : NullableView Int).length ∧
    ([some 1, some 2] : List (Option Nat)).length =
      ([1, 2] : List Nat).length ∧
    ([some 1, none] : List (Option Nat)).length =
      ([(1, true), (2, false)] : NullableView Nat).length ∧
    ([some [65], none] : List (Option (List Nat))).length =
      ([some [65], none] : List (Option (List Nat))).length ∧
    ([some [66], none] : List (Option (List Nat))).length =
      ([some [66], none] : List (Option (List Nat))).length := by
  refine ⟨?_, ?_, ?_, ?_, ?_, ?_⟩
  · exact (fill_arrow_array_preserves_length
      (fun n : Nat => (.ok n : Except MappingError Nat)) ([3, 4] : List Int)
      [(5, true), (9, false)] [1, 2] [(1, true), (2, false)] 3 3
      [some [65], none] [some [66], none]).1 [some 3, some 4] rfl
  · exact (fill_arrow_array_preserves_length
      (fun n : Nat => (.ok n : Except MappingError Nat)) ([3, 4] : List Int)
      [(5, true), (9, false)] [1, 2] [(1, true), (2, false)] 3 3
      [some [65], none] [some [66], none]).2.1 [some 5, none] rfl
  · exact (fill_arrow_array_preserves_length
      (fun n : Nat => (.ok n : Except MappingError Nat)) ([3, 4] : List Int)
      [(5, true), (9, false)] [1, 2] [(1, true), (2, false)] 3 3
      [some [65], none] [some [66], none]).2.2.1 [some 1, some 2] rfl
  · exact (fill_arrow_array_preserves_length
      (fun n : Nat => (.ok n : Except MappingError Nat)) ([3, 4] : List Int)
      [(5, true), (9, false)] [1, 2] [(1, true), (2, false)] 3 3
      [some [65], none] [some [66], none]).2.2.2.1 [some 1, none] rfl
  · exact (fill_arrow_array_preserves_length
      (fun n : Nat => (.ok n : Except MappingError Nat)) ([3, 4] : List Int)
      [(5, true), (9, false)] [1, 2] [(1, true), (2, false)] 3 3
      [some [65], none] [some [66], none]).2.2.2.2.1 [some [65], none] rfl
  · exact (fill_arrow_array_preserves_length
      (fun n : Nat => (.ok n : Except MappingError Nat)) ([3, 4] : List Int)
      [(5, true), (9, false)] [1, 2] [(1, true), (2, false)] 3 3
      [some [65], none] [some [66], none]).2.2.2.2.2 [some [66], none] rfl
